import Mathlib

/-!
# Simple-Compiler (`src/sc.cpp`): a verification development

`sc` is a front-end dispatcher: it loads two lists of default flags, looks at the
extensions of the files named on its command line, picks `gcc` or `g++`, joins
default flags and user arguments into one shell command and runs it.

The embedding is shallow.  `std::string` is `String`, `std::vector<std::string>` is
`List String`, the process environment (current directory, file system, the
external command runner) is an explicit `Env` value, and `main` returns the
observable outcome of a run (`Run`): exit code, the two output streams and the
commands given to `system`.

Library behaviour that `sc.cpp` relies on is modelled for a POSIX target
(directory separator `/`, no root names), following the C++17 wording of
`[fs.path.decompose]`, `[fs.path.append]` and of `std::getline`.

`main` has no `try` block.  The two library calls in it that can raise a
`filesystem_error`, `fs::absolute` (line 74) and the throwing overload of
`fs::is_regular_file` (line 97), are therefore fallible in the model (`Option`), and a run in
which one of them throws ends by `std::terminate` (`Ending.aborted`) instead of returning
from `main`.  Memory exhaustion is not modelled.
-/

namespace SimpleCompiler

/-! ## Strings and `std::filesystem::path` (POSIX) -/

/-- Position of the last occurrence of `c` (`std::string::rfind(c)`), `none` for `npos`. -/
def rfind (c : Char) : List Char → Option Nat
  | [] => none
  | x :: xs =>
    match rfind c xs with
    | some i => some (i + 1)
    | none => if x = c then some 0 else none

/-- Model of `fs::path::filename()`: the characters after the last directory separator
(the whole path when it has none, empty when the path ends in a separator). -/
def filename (p : String) : String :=
  match rfind '/' p.data with
  | some i => String.mk (p.data.drop (i + 1))
  | none => p

/-- Model of `fs::path::extension()`.  The filename components `.` and `..` and every
filename of at most two characters that starts with a period have no extension; otherwise the
extension starts at the rightmost period, unless that period is the first character. -/
def extension (p : String) : String :=
  let f := (filename p).data
  if f.length ≤ 2 ∧ f.head? = some '.' then ""
  else
    match rfind '.' f with
    | some (pos + 1) => String.mk (f.drop (pos + 1))
    | _ => ""

/-- Model of `fs::path::parent_path()`: a path without a relative part (empty, or separators
only) is its own parent; otherwise the last component is removed together with the separators
before it, a root directory being kept. -/
def parent_path (p : String) : String :=
  if p.data.all (fun c => c == '/') then p
  else
    let stem := ((p.data.reverse.dropWhile (fun c => c != '/')).dropWhile (fun c => c == '/')).reverse
    if stem.isEmpty && p.data.head? == some '/' then "/" else String.mk stem

/-- Model of `fs::path::operator/`: an absolute right operand replaces the left one; otherwise
a separator is inserted unless the left operand is empty or already ends in one. -/
def path_append (p q : String) : String :=
  if q.data.head? = some '/' then q
  else if p.data = [] then q
  else if p.data.getLast? = some '/' then p ++ q
  else p ++ "/" ++ q

/-! ## The environment of a run -/

/-- Everything outside the program that a run of `sc` depends on. -/
structure Env where
  /-- The working directory, `fs::current_path()`, used by `fs::absolute`; `none` when it
  cannot be determined. -/
  current_path : Option String
  /-- The status query `fs::is_regular_file(path)` of line 97, the overload that throws:
  `some true` for a path that names an existing regular file, `some false` for one that names
  another kind of file or nothing (`ENOENT`, `ENOTDIR`), and `none` when the query fails with
  any other error (`ENAMETOOLONG`, `ELOOP`, `EACCES`, ...) and a `filesystem_error` is
  thrown. -/
  is_regular_file : String → Option Bool
  /-- Opening a file for reading, `std::ifstream(path)`: `none` when `is_open()` is false,
  otherwise the characters the stream delivers. -/
  ifstream : String → Option String
  /-- The call `system(cmd.c_str())`: the status the command processor returns. -/
  system : String → Int

/-- Model of the throwing overload `fs::absolute(p)`: `none` when it throws, which it does for
an empty path and, for a relative path, when the current directory cannot be determined.  An
absolute path is returned as is, a relative one is appended to the current directory; the
result is not normalised. -/
def absolute (env : Env) (p : String) : Option String :=
  if p.data = [] then none
  else if p.data.head? = some '/' then some p
  else
    match env.current_path with
    | some cwd => some (path_append cwd p)
    | none => none

/-- The constant `EXIT_SUCCESS` of `<cstdlib>`. -/
def EXIT_SUCCESS : Int := 0

/-- The constant `EXIT_FAILURE` of `<cstdlib>` (1 on the POSIX targets this program builds
for). -/
def EXIT_FAILURE : Int := 1

/-! ## `get_default_opts` (lines 11-35) -/

/-- Model of `std::getline(stream, line)` on the characters left in a stream: `none` when
nothing can be extracted (end of file); otherwise the characters up to the next newline, and
the stream after that newline (the newline is extracted and dropped). -/
def getline : List Char → Option (List Char × List Char)
  | [] => none
  | c :: cs =>
    if c = '\n' then some ([], cs)
    else
      match getline cs with
      | some (line, rest) => some (c :: line, rest)
      | none => some ([c], [])

/-- The loop `while (std::getline(conf, line)) opts.push_back(line);`, bounded by `fuel`
iterations. -/
def read_lines : Nat → List Char → List String → List String
  | 0, _, opts => opts
  | fuel + 1, stream, opts =>
    match getline stream with
    | some (line, rest) => read_lines fuel rest (opts ++ [String.mk line])
    | none => opts

/-- All lines of a stream: every iteration of the loop extracts at least one character, so
`length + 1` iterations reach the end of the stream (`read_lines_fuel`). -/
def read_all (stream : String) (opts : List String) : List String :=
  read_lines (stream.data.length + 1) stream.data opts

/-- Path of the C flag file, `exe_path.parent_path().parent_path() / "conf" / "gcc.conf"`. -/
def c_conf_dir (exe_path : String) : String :=
  path_append (path_append (parent_path (parent_path exe_path)) "conf") "gcc.conf"

/-- Path of the C++ flag file, `exe_path.parent_path().parent_path() / "conf" / "g++.conf"`. -/
def cpp_conf_dir (exe_path : String) : String :=
  path_append (path_append (parent_path (parent_path exe_path)) "conf") "g++.conf"

/-- The function `get_default_opts`; the two vectors passed by reference are returned next to
the boolean result. -/
def get_default_opts (env : Env) (exe_path : String) (c_opts cpp_opts : List String) :
    Bool × List String × List String :=
  match env.ifstream (c_conf_dir exe_path), env.ifstream (cpp_conf_dir exe_path) with
  | some c_conf, some cpp_conf => (true, read_all c_conf c_opts, read_all cpp_conf cpp_opts)
  | _, _ => (false, c_opts, cpp_opts)

/-! ## File classification (lines 37-49) -/

/-- The function `is_c_file`. -/
def is_c_file (file : String) : Bool :=
  extension file == ".c"

/-- The function `is_cpp_file`. -/
def is_cpp_file (file : String) : Bool :=
  let ext := extension file
  ext == ".cpp" || ext == ".cxx" || ext == ".cc" || ext == ".C"

/-! ## `compile` (lines 51-62) -/

/-- The command string built by `compile`: `cmd = compiler`, then `cmd += " " + arg` for
every argument. -/
def command_line (args : List String) (compiler : String) : String :=
  args.foldl (fun cmd arg => cmd ++ (" " ++ arg)) compiler

/-- What a call of `compile` does: the line written to standard output, the command given to
`system`, and the returned status. -/
structure Compiled where
  echo : String
  command : String
  status : Int

/-- The function `compile`. -/
def compile (env : Env) (args : List String) (compiler : String) : Compiled :=
  let cmd := command_line args compiler
  { echo := "[INFO] Running: " ++ cmd ++ "\n", command := cmd, status := env.system cmd }

/-! ## `main` (lines 64-133) -/

/-- The four ways `main` returns before it calls `compile`. -/
inductive Failure where
  | usage (argv0 : String)
  | config_load
  | mixed_languages
  | no_source_files
  deriving DecidableEq, Repr

/-- The text written to standard error on each failure. -/
def Failure.message : Failure → String
  | .usage argv0 => "Usage: " ++ argv0 ++ " [options] <source-files...>\n"
  | .config_load => "[ERROR] Failed to load default options.\n"
  | .mixed_languages =>
    "[ERROR] Mixed C and C++ files detected. This tool does not support hybrid compilation.\n"
  | .no_source_files =>
    "[ERROR] No valid C/C++ source files found (supported extensions: .c, .cpp, .cxx, .cc, .C).\n"

/-- Why `main` does not reach `compile`: it printed a message and returned `EXIT_FAILURE`, or
a `filesystem_error` left `main` uncaught. -/
inductive Stop where
  | failed (e : Failure)
  | threw
  deriving DecidableEq, Repr

/-- One iteration of the detection loop (lines 94-108) on the flags `(use_gcc, use_gpp)`;
`none` when the status query throws. -/
def scan_step (env : Env) (flags : Bool × Bool) (arg : String) : Option (Bool × Bool) :=
  match env.is_regular_file arg with
  | none => none
  | some true =>
    if is_c_file arg then some (true, flags.2)
    else if is_cpp_file arg then some (flags.1, true)
    else some flags
  | some false => some flags

/-- The detection loop from given flags: the arguments are visited in order, and an exception
in one iteration ends the loop. -/
def scan_loop (env : Env) : List String → Bool × Bool → Option (Bool × Bool)
  | [], flags => some flags
  | arg :: rest, flags =>
    match scan_step env flags arg with
    | some flags1 => scan_loop env rest flags1
    | none => none

/-- The detection loop over the user arguments, from `use_gcc = use_gpp = false`. -/
def scan (env : Env) (user_args : List String) : Option (Bool × Bool) :=
  scan_loop env user_args (false, false)

/-- Lines 90-123: language detection and choice of compiler and default flags. -/
def dispatch (env : Env) (user_args default_c_opts default_cpp_opts : List String) :
    Except Stop (String × List String) :=
  match scan env user_args with
  | none => .error .threw
  | some (use_gcc, use_gpp) =>
    if use_gcc && use_gpp then .error (.failed .mixed_languages)
    else if !use_gcc && !use_gpp then .error (.failed .no_source_files)
    else
      .ok (if use_gcc then "gcc" else "g++", if use_gcc then default_c_opts else default_cpp_opts)

/-- Lines 125-128: the two `insert` calls at the end of the empty vector `full_args`. -/
def assemble (default_opts user_args : List String) : List String :=
  (([] : List String) ++ default_opts) ++ user_args

/-- Lines 66-128: everything `main` does before it calls `compile`.  The result is either the
reason it stops, or the compiler name and the argument vector handed to `compile`. -/
def prepare (env : Env) (argv : List String) : Except Stop (String × List String) :=
  if argv.length < 2 then .error (.failed (.usage (argv.headD "")))
  else
    match absolute env (argv.headD "") with
    | none => .error .threw
    | some exe_path =>
      match get_default_opts env exe_path [] [] with
      | (false, _, _) => .error (.failed .config_load)
      | (true, default_c_opts, default_cpp_opts) =>
        let user_args := argv.drop 1
        match dispatch env user_args default_c_opts default_cpp_opts with
        | .error e => .error e
        | .ok (compiler, default_opts) => .ok (compiler, assemble default_opts user_args)

/-- How a run ends: `main` returns an exit code, or an uncaught exception reaches
`std::terminate` and the process is aborted. -/
inductive Ending where
  | returned (code : Int)
  | aborted
  deriving DecidableEq, Repr

/-- The observable outcome of a run of `main`. -/
structure Run where
  ending : Ending
  /-- What the program wrote to standard output. -/
  stdout : List String
  /-- What the program wrote to standard error. -/
  stderr : List String
  /-- The commands given to `system`, in order. -/
  commands : List String

/-- The function `main`; `argv` has `argc` entries. -/
def main (env : Env) (argv : List String) : Run :=
  match prepare env argv with
  | .error (.failed e) =>
    { ending := .returned EXIT_FAILURE, stdout := [], stderr := [e.message], commands := [] }
  | .error .threw =>
    { ending := .aborted, stdout := [], stderr := [], commands := [] }
  | .ok (compiler, full_args) =>
    let result := compile env full_args compiler
    { ending := .returned (if result.status = 0 then EXIT_SUCCESS else EXIT_FAILURE),
      stdout := [result.echo], stderr := [], commands := [result.command] }

/-! ## Specification-side vocabulary -/

/-- Some argument names an existing regular file with extension `.c`. -/
def anyC (env : Env) (args : List String) : Prop :=
  ∃ a ∈ args, env.is_regular_file a = some true ∧ extension a = ".c"

/-- Some argument names an existing regular file with extension `.cpp`, `.cxx`, `.cc` or
`.C`. -/
def anyCpp (env : Env) (args : List String) : Prop :=
  ∃ a ∈ args, env.is_regular_file a = some true ∧
    (extension a = ".cpp" ∨ extension a = ".cxx" ∨ extension a = ".cc" ∨ extension a = ".C")

/-- The status query succeeds for every argument: no `filesystem_error` in the detection
loop. -/
def queries_ok (env : Env) (args : List String) : Prop :=
  ∀ a ∈ args, env.is_regular_file a ≠ none

/-- Boolean form of `queries_ok`. -/
def all_ok (env : Env) (args : List String) : Bool :=
  args.all (fun a => (env.is_regular_file a).isSome)

/-- Boolean form of `anyC`: some argument is an existing regular file that `is_c_file`
accepts. -/
def seen_c (env : Env) (args : List String) : Bool :=
  args.any (fun a => env.is_regular_file a == some true && is_c_file a)

/-- Boolean form of `anyCpp`: some argument is an existing regular file that `is_cpp_file`
accepts. -/
def seen_cpp (env : Env) (args : List String) : Bool :=
  args.any (fun a => env.is_regular_file a == some true && is_cpp_file a)

/-- The run that ends with a message on standard error and `EXIT_FAILURE`. -/
def Run.failed (e : Failure) : Run :=
  { ending := .returned EXIT_FAILURE, stdout := [], stderr := [e.message], commands := [] }

/-- The run that an uncaught exception aborts before anything is written or run. -/
def Run.threw : Run :=
  { ending := .aborted, stdout := [], stderr := [], commands := [] }

/-- The run in which the command line of `compiler` and `full_args` is echoed and given to
`system`, whose status decides the exit code. -/
def Run.invoked (env : Env) (compiler : String) (full_args : List String) : Run :=
  { ending := .returned
      (if env.system (command_line full_args compiler) = 0 then EXIT_SUCCESS else EXIT_FAILURE),
    stdout := ["[INFO] Running: " ++ command_line full_args compiler ++ "\n"],
    stderr := [],
    commands := [command_line full_args compiler] }

/-- The lines of a text, as the specification counts them: the pieces between newlines, the
piece after the last newline counting only when it is not empty. -/
def split_lines : List Char → List (List Char)
  | [] => []
  | c :: cs =>
    if c = '\n' then [] :: split_lines cs
    else
      match split_lines cs with
      | [] => [[c]]
      | l :: ls => (c :: l) :: ls

/-- A text with a newline added at its end when it is not empty and does not end in one. -/
def terminated (s : List Char) : List Char :=
  if s = [] ∨ s.getLast? = some '\n' then s else s ++ ['\n']

/-- The text `compile` appends to the compiler name: every token preceded by one space. -/
def spaced : List String → String
  | [] => ""
  | t :: ts => " " ++ t ++ spaced ts

/-- An installation under `/opt/sc` started from `/work`: the two flag files can be opened
when a content is given for them, the paths in `files` are the regular files, every status
query succeeds, and every command returns `status`. -/
def scenario (files : List String) (c_conf cpp_conf : Option String) (status : Int) : Env where
  current_path := some "/work"
  is_regular_file := fun p => some (files.contains p)
  ifstream := fun p =>
    if p = "/opt/sc/conf/gcc.conf" then c_conf
    else if p = "/opt/sc/conf/g++.conf" then cpp_conf
    else none
  system := fun _ => status

/-- The installation of `scenario` with both flag files present, where in addition the status
query fails on the paths in `broken` (for example a symbolic link that points to itself, or a
name longer than the file system allows). -/
def scenario_broken (files broken : List String) (c_conf cpp_conf : String) (status : Int) :
    Env where
  current_path := some "/work"
  is_regular_file := fun p => if broken.contains p then none else some (files.contains p)
  ifstream := fun p =>
    if p = "/opt/sc/conf/gcc.conf" then some c_conf
    else if p = "/opt/sc/conf/g++.conf" then some cpp_conf
    else none
  system := fun _ => status

/-! ## Lemmas on classification and detection -/

theorem is_c_file_iff (p : String) : is_c_file p = true ↔ extension p = ".c" := by
  simp [is_c_file]

theorem is_cpp_file_iff (p : String) :
    is_cpp_file p = true ↔
      extension p = ".cpp" ∨ extension p = ".cxx" ∨ extension p = ".cc" ∨ extension p = ".C" := by
  simp [is_cpp_file, or_assoc]

theorem not_c_and_cpp (p : String) : ¬ (is_c_file p = true ∧ is_cpp_file p = true) := by
  rw [is_c_file_iff, is_cpp_file_iff]
  rintro ⟨hc, h | h | h | h⟩ <;> rw [hc] at h <;> exact absurd h (by decide)

theorem getline_eq_none (s : List Char) : getline s = none ↔ s = [] := by
  cases s with
  | nil => simp [getline]
  | cons c cs =>
    simp only [getline]
    split
    · simp
    · split <;> simp

theorem split_lines_eq_nil (s : List Char) : split_lines s = [] ↔ s = [] := by
  cases s with
  | nil => simp [split_lines]
  | cons c cs =>
    simp only [split_lines]
    split
    · simp
    · split <;> simp

theorem getline_split (s line rest : List Char) (h : getline s = some (line, rest)) :
    split_lines s = line :: split_lines rest ∧ rest.length < s.length := by
  induction s generalizing line rest with
  | nil => simp [getline] at h
  | cons c cs ih =>
    simp only [getline] at h
    by_cases hc : c = '\n'
    · simp only [hc, if_true, Option.some.injEq, Prod.mk.injEq] at h
      obtain ⟨rfl, rfl⟩ := h
      simp [split_lines, hc]
    · simp only [hc, if_false] at h
      cases hg : getline cs with
      | none =>
        rw [hg] at h
        simp only [Option.some.injEq, Prod.mk.injEq] at h
        obtain ⟨rfl, rfl⟩ := h
        have hcs := (getline_eq_none cs).mp hg
        subst hcs
        simp [split_lines, hc]
      | some lr =>
        obtain ⟨l, r⟩ := lr
        rw [hg] at h
        simp only [Option.some.injEq, Prod.mk.injEq] at h
        obtain ⟨rfl, rfl⟩ := h
        obtain ⟨h1, h2⟩ := ih l r hg
        refine ⟨?_, by simp only [List.length_cons]; omega⟩
        simp [split_lines, hc, h1]

theorem read_lines_fuel (fuel : Nat) (s : List Char) (opts : List String)
    (h : s.length ≤ fuel) :
    read_lines fuel s opts = opts ++ (split_lines s).map String.mk := by
  induction fuel generalizing s opts with
  | zero =>
    have hs : s = [] := List.length_eq_zero.mp (Nat.le_zero.mp h)
    simp [read_lines, hs, split_lines]
  | succ n ih =>
    simp only [read_lines]
    cases hg : getline s with
    | none =>
      have hs := (getline_eq_none s).mp hg
      simp [hs, split_lines]
    | some lr =>
      obtain ⟨line, rest⟩ := lr
      obtain ⟨h1, h2⟩ := getline_split s line rest hg
      simp only
      rw [ih rest _ (by omega), h1]
      simp

theorem read_all_eq (s : String) (opts : List String) :
    read_all s opts = opts ++ (split_lines s.data).map String.mk :=
  read_lines_fuel _ _ _ (Nat.le_succ _)

theorem terminated_cons (c : Char) (cs : List Char) (h : cs ≠ []) :
    terminated (c :: cs) = c :: terminated cs := by
  obtain ⟨d, ds, rfl⟩ := List.exists_cons_of_ne_nil h
  simp only [terminated, List.getLast?_cons_cons]
  split <;> simp_all

theorem split_lines_no_newline (s : List Char) : ∀ t ∈ split_lines s, '\n' ∉ t := by
  induction s with
  | nil => simp [split_lines]
  | cons c cs ih =>
    simp only [split_lines]
    by_cases hc : c = '\n'
    · simp only [hc, if_true, List.mem_cons]
      rintro t (rfl | ht)
      · simp
      · exact ih t ht
    · simp only [hc, if_false]
      cases hs : split_lines cs with
      | nil => simp; exact fun h => hc h.symm
      | cons l ls =>
        rw [hs] at ih
        simp only [List.mem_cons]
        rintro t (rfl | ht)
        · simp only [List.mem_cons, not_or]
          exact ⟨fun h => hc h.symm, ih l (by simp)⟩
        · exact ih t (by simp [ht])

theorem split_lines_flatten (s : List Char) :
    ((split_lines s).map (fun t => t ++ ['\n'])).flatten = terminated s := by
  induction s with
  | nil => simp [split_lines, terminated]
  | cons c cs ih =>
    simp only [split_lines]
    by_cases hc : c = '\n'
    · simp only [hc, if_true, List.map_cons, List.flatten_cons, ih]
      by_cases hcs : cs = []
      · simp [hcs, terminated]
      · rw [terminated_cons _ _ hcs]; simp
    · simp only [hc, if_false]
      cases hs : split_lines cs with
      | nil =>
        have hcs := (split_lines_eq_nil cs).mp hs
        simp [hcs, terminated, hc]
      | cons l ls =>
        have hcs : cs ≠ [] := fun h => by simp [h, split_lines] at hs
        rw [hs] at ih
        rw [terminated_cons _ _ hcs, ← ih]
        simp

theorem split_lines_length (s : List Char) :
    (split_lines s).length =
      s.count '\n' + (if s = [] ∨ s.getLast? = some '\n' then 0 else 1) := by
  induction s with
  | nil => simp [split_lines]
  | cons c cs ih =>
    simp only [split_lines]
    by_cases hc : c = '\n'
    · simp only [hc, if_true, List.length_cons, ih, List.count_cons_self]
      by_cases hcs : cs = []
      · simp [hcs]
      · obtain ⟨d, ds, rfl⟩ := List.exists_cons_of_ne_nil hcs
        simp only [List.getLast?_cons_cons]
        simp
        omega
    · simp only [hc, if_false]
      cases hs : split_lines cs with
      | nil =>
        have hcs := (split_lines_eq_nil cs).mp hs
        simp [hcs, hc, List.count_cons_of_ne (Ne.symm hc)]
      | cons l ls =>
        have hcs : cs ≠ [] := fun h => by simp [h, split_lines] at hs
        rw [hs] at ih
        obtain ⟨d, ds, rfl⟩ := List.exists_cons_of_ne_nil hcs
        simp only [List.getLast?_cons_cons, List.length_cons] at ih ⊢
        rw [ih, List.count_cons_of_ne (Ne.symm hc)]
        simp

theorem command_line_eq (ts : List String) (c : String) : command_line ts c = c ++ spaced ts := by
  unfold command_line
  induction ts generalizing c with
  | nil => simp [spaced]
  | cons t ts ih => rw [List.foldl_cons, ih]; simp [spaced, String.append_assoc]

theorem intercalate_go_eq (ts : List String) (c : String) :
    String.intercalate.go c " " ts = c ++ spaced ts := by
  induction ts generalizing c with
  | nil => simp [String.intercalate.go, spaced]
  | cons t ts ih => simp [String.intercalate.go, ih, spaced, String.append_assoc]

theorem rfind_eq_none (c : Char) (l : List Char) : rfind c l = none ↔ c ∉ l := by
  induction l with
  | nil => simp [rfind]
  | cons x xs ih =>
    simp only [rfind, List.mem_cons, not_or]
    cases h : rfind c xs with
    | none =>
      have hx := ih.mp h
      by_cases hxc : x = c
      · simp [hxc]
      · simp [hxc, hx, Ne.symm hxc]
    | some i =>
      have hx : ¬ c ∉ xs := fun hn => by simp [ih.mpr hn] at h
      simp [hx]

theorem rfind_append (c : Char) (xs ys : List Char) (h : c ∉ ys) :
    rfind c (xs ++ c :: ys) = some xs.length := by
  induction xs with
  | nil => simp [rfind, (rfind_eq_none c ys).mpr h]
  | cons x xs ih => simp [rfind, ih]

/-- A filename that is a period followed by period-free characters has no extension. -/
theorem extension_dotfile (p : String) (name : List Char)
    (hf : (filename p).data = '.' :: name) (hn : '.' ∉ name) : extension p = "" := by
  unfold extension
  simp only [hf]
  split
  · rfl
  · simp [rfind, (rfind_eq_none '.' name).mpr hn]

/-- The filename `..` has no extension. -/
theorem extension_dotdot (p : String) (hf : filename p = "..") : extension p = "" := by
  unfold extension
  simp only [hf]
  rfl

/-- A filename with a non-empty stem before its last period, other than `..`, has the
extension that starts at that period. -/
theorem extension_last_dot (p : String) (stem e : List Char)
    (hf : (filename p).data = stem ++ '.' :: e) (hs : stem ≠ []) (he : '.' ∉ e)
    (hdd : filename p ≠ "..") : extension p = String.mk ('.' :: e) := by
  obtain ⟨s0, srest, rfl⟩ := List.exists_cons_of_ne_nil hs
  unfold extension
  simp only [hf]
  have hcond : ¬ ((s0 :: srest ++ '.' :: e).length ≤ 2 ∧
      (s0 :: srest ++ '.' :: e).head? = some '.') := by
    rintro ⟨hlen, hhead⟩
    simp only [List.cons_append, List.length_cons, List.length_append] at hlen
    have h1 : srest = [] := List.length_eq_zero.mp (by omega)
    have h2 : e = [] := List.length_eq_zero.mp (by omega)
    simp only [List.cons_append, List.head?_cons, Option.some.injEq] at hhead
    subst h1 h2 hhead
    apply hdd
    apply String.ext
    rw [hf]
    rfl
  rw [if_neg hcond, rfind_append '.' (s0 :: srest) e he]
  simp

theorem all_ok_iff (env : Env) (args : List String) :
    all_ok env args = true ↔ queries_ok env args := by
  simp [all_ok, queries_ok, Option.isSome_iff_ne_none]

theorem seen_c_iff (env : Env) (args : List String) : seen_c env args = true ↔ anyC env args := by
  simp [seen_c, anyC, is_c_file]

theorem seen_cpp_iff (env : Env) (args : List String) :
    seen_cpp env args = true ↔ anyCpp env args := by
  simp only [seen_cpp, anyCpp, List.any_eq_true, Bool.and_eq_true, is_cpp_file_iff, beq_iff_eq]

/-- The detection loop visits every argument: it throws exactly when some status query
throws, and otherwise raises each flag exactly when a matching file is seen. -/
theorem scan_loop_eq (env : Env) (args : List String) (flags : Bool × Bool) :
    scan_loop env args flags =
      if all_ok env args then
        some (flags.1 || seen_c env args, flags.2 || seen_cpp env args)
      else none := by
  induction args generalizing flags with
  | nil => simp [scan_loop, all_ok, seen_c, seen_cpp]
  | cons a rest ih =>
    have hx := not_c_and_cpp a
    obtain ⟨f1, f2⟩ := flags
    simp only [scan_loop, scan_step]
    cases hr : env.is_regular_file a with
    | none => simp [all_ok, hr]
    | some b =>
      have hall : all_ok env (a :: rest) = all_ok env rest := by simp [all_ok, hr]
      cases b
      · simp only [ih, hall]
        simp [seen_c, seen_cpp, hr]
      · cases hc : is_c_file a <;> cases hp : is_cpp_file a
        · simp only [Bool.false_eq_true, if_false, ih, hall]
          simp [seen_c, seen_cpp, hr, hc, hp]
        · simp only [Bool.false_eq_true, if_false, if_true, ih, hall]
          simp [seen_c, seen_cpp, hr, hc, hp]
        · simp only [if_true, ih, hall]
          simp [seen_c, seen_cpp, hr, hc, hp]
        · exact absurd ⟨hc, hp⟩ hx

theorem scan_eq (env : Env) (args : List String) :
    scan env args =
      if all_ok env args then some (seen_c env args, seen_cpp env args) else none := by
  simp [scan, scan_loop_eq]

theorem any_perm {args args' : List String} (h : args.Perm args') (f : String → Bool) :
    args.any f = args'.any f := by
  rw [Bool.eq_iff_iff]
  simp only [List.any_eq_true]
  exact ⟨fun ⟨a, ha, hf⟩ => ⟨a, h.mem_iff.mp ha, hf⟩, fun ⟨a, ha, hf⟩ => ⟨a, h.mem_iff.mpr ha, hf⟩⟩

theorem all_perm {args args' : List String} (h : args.Perm args') (f : String → Bool) :
    args.all f = args'.all f := by
  rw [Bool.eq_iff_iff]
  simp only [List.all_eq_true]
  exact ⟨fun hf a ha => hf a (h.mem_iff.mpr ha), fun hf a ha => hf a (h.mem_iff.mp ha)⟩

theorem scan_perm (env : Env) {args args' : List String} (h : args.Perm args') :
    scan env args = scan env args' := by
  simp only [scan_eq, all_ok, seen_c, seen_cpp, any_perm h, all_perm h]

/-- The outcomes of `dispatch`, by the success of the status queries and the two detection
flags. -/
theorem dispatch_eq (env : Env) (args c cpp : List String) :
    dispatch env args c cpp =
      match all_ok env args, seen_c env args, seen_cpp env args with
      | false, _, _ => .error .threw
      | true, true, true => .error (.failed .mixed_languages)
      | true, false, false => .error (.failed .no_source_files)
      | true, true, false => .ok ("gcc", c)
      | true, false, true => .ok ("g++", cpp) := by
  unfold dispatch
  rw [scan_eq]
  cases all_ok env args <;> cases seen_c env args <;> cases seen_cpp env args <;> rfl

theorem main_of_failed (env : Env) (argv : List String) (e : Failure)
    (h : prepare env argv = .error (.failed e)) : main env argv = Run.failed e := by
  simp [main, h, Run.failed]

theorem main_of_threw (env : Env) (argv : List String) (h : prepare env argv = .error .threw) :
    main env argv = Run.threw := by
  simp [main, h, Run.threw]

theorem main_of_ok (env : Env) (argv : List String) (compiler : String) (full_args : List String)
    (h : prepare env argv = .ok (compiler, full_args)) :
    main env argv = Run.invoked env compiler full_args := by
  simp [main, h, compile, Run.invoked]

/-- After the argument check, a successful `fs::absolute` and a successful load, `prepare` is
the dispatch followed by the assembly of the argument vector. -/
theorem prepare_of_loaded (env : Env) (argv c cpp : List String) (exe_path : String)
    (hlen : 2 ≤ argv.length) (ha : absolute env (argv.headD "") = some exe_path)
    (hg : get_default_opts env exe_path [] [] = (true, c, cpp)) :
    prepare env argv =
      match dispatch env (argv.drop 1) c cpp with
      | .error e => .error e
      | .ok (k, D) => .ok (k, D ++ argv.drop 1) := by
  unfold prepare
  rw [if_neg (by omega)]
  simp only [ha, hg, assemble, List.nil_append]

theorem prepare_ok_iff (env : Env) (argv : List String) (compiler : String)
    (full_args : List String) :
    prepare env argv = .ok (compiler, full_args) ↔
      2 ≤ argv.length ∧ ∃ exe_path c cpp D,
        absolute env (argv.headD "") = some exe_path ∧
        get_default_opts env exe_path [] [] = (true, c, cpp) ∧
        dispatch env (argv.drop 1) c cpp = .ok (compiler, D) ∧
        full_args = D ++ argv.drop 1 := by
  constructor
  · intro h
    by_cases hlen : argv.length < 2
    · simp [prepare, hlen] at h
    · cases ha : absolute env (argv.headD "") with
      | none =>
        unfold prepare at h
        rw [if_neg hlen] at h
        simp only [ha] at h
        cases h
      | some exe =>
        rcases hg : get_default_opts env exe [] [] with ⟨b, c, cpp⟩
        cases b
        · unfold prepare at h
          rw [if_neg hlen] at h
          simp only [ha, hg] at h
          cases h
        · rw [prepare_of_loaded env argv c cpp exe (by omega) ha hg] at h
          cases hd : dispatch env (argv.drop 1) c cpp with
          | error e => rw [hd] at h; cases h
          | ok kd =>
            obtain ⟨k, D⟩ := kd
            rw [hd] at h
            simp only [Except.ok.injEq, Prod.mk.injEq] at h
            obtain ⟨rfl, rfl⟩ := h
            exact ⟨by omega, exe, c, cpp, D, rfl, hg, hd, rfl⟩
  · rintro ⟨hlen, exe, c, cpp, D, ha, hg, hd, rfl⟩
    rw [prepare_of_loaded env argv c cpp exe hlen ha hg, hd]

/-- Every run of `main` is one of eight: the usage failure; `fs::absolute` throws; the
configuration does not load; a status query throws; or, all queries having succeeded, one row
of the decision table. -/
theorem main_cases (env : Env) (argv : List String) :
    (argv.length < 2 ∧ main env argv = Run.failed (.usage (argv.headD ""))) ∨
    (2 ≤ argv.length ∧ absolute env (argv.headD "") = none ∧ main env argv = Run.threw) ∨
    (2 ≤ argv.length ∧ ∃ exe_path, absolute env (argv.headD "") = some exe_path ∧
      (get_default_opts env exe_path [] []).1 = false ∧
      main env argv = Run.failed .config_load) ∨
    (2 ≤ argv.length ∧ ∃ exe_path c cpp, absolute env (argv.headD "") = some exe_path ∧
      get_default_opts env exe_path [] [] = (true, c, cpp) ∧
      ((¬ queries_ok env (argv.drop 1) ∧ main env argv = Run.threw) ∨
       (queries_ok env (argv.drop 1) ∧ anyC env (argv.drop 1) ∧ anyCpp env (argv.drop 1) ∧
          main env argv = Run.failed .mixed_languages) ∨
       (queries_ok env (argv.drop 1) ∧ ¬ anyC env (argv.drop 1) ∧ ¬ anyCpp env (argv.drop 1) ∧
          main env argv = Run.failed .no_source_files) ∨
       (queries_ok env (argv.drop 1) ∧ anyC env (argv.drop 1) ∧ ¬ anyCpp env (argv.drop 1) ∧
          main env argv = Run.invoked env "gcc" (c ++ argv.drop 1)) ∨
       (queries_ok env (argv.drop 1) ∧ ¬ anyC env (argv.drop 1) ∧ anyCpp env (argv.drop 1) ∧
          main env argv = Run.invoked env "g++" (cpp ++ argv.drop 1)))) := by
  by_cases hlen : argv.length < 2
  · exact Or.inl ⟨hlen, main_of_failed env argv _ (by simp [prepare, hlen])⟩
  · have hlen2 : 2 ≤ argv.length := by omega
    cases ha : absolute env (argv.headD "") with
    | none =>
      refine Or.inr (Or.inl ⟨hlen2, rfl, main_of_threw env argv ?_⟩)
      unfold prepare
      rw [if_neg hlen]
      simp only [ha]
    | some exe =>
      rcases hg : get_default_opts env exe [] [] with ⟨b, c, cpp⟩
      cases b
      · refine Or.inr (Or.inr (Or.inl ⟨hlen2, exe, rfl, by rw [hg], main_of_failed env argv _ ?_⟩))
        unfold prepare
        rw [if_neg hlen]
        simp only [ha, hg]
      · refine Or.inr (Or.inr (Or.inr ⟨hlen2, exe, c, cpp, rfl, hg, ?_⟩))
        have hp := prepare_of_loaded env argv c cpp exe hlen2 ha hg
        rw [dispatch_eq] at hp
        have hq := all_ok_iff env (argv.drop 1)
        have hc := seen_c_iff env (argv.drop 1)
        have hpp := seen_cpp_iff env (argv.drop 1)
        cases h1 : all_ok env (argv.drop 1) <;> cases h2 : seen_c env (argv.drop 1) <;>
          cases h3 : seen_cpp env (argv.drop 1) <;>
          rw [h1] at hq <;> rw [h2] at hc <;> rw [h3] at hpp <;>
          rw [h1, h2, h3] at hp <;>
          simp only [Bool.false_eq_true, false_iff, true_iff] at hq hc hpp
        · exact Or.inl ⟨hq, main_of_threw env argv hp⟩
        · exact Or.inl ⟨hq, main_of_threw env argv hp⟩
        · exact Or.inl ⟨hq, main_of_threw env argv hp⟩
        · exact Or.inl ⟨hq, main_of_threw env argv hp⟩
        · exact Or.inr (Or.inr (Or.inl ⟨hq, hc, hpp, main_of_failed env argv _ hp⟩))
        · exact Or.inr (Or.inr (Or.inr (Or.inr ⟨hq, hc, hpp, main_of_ok env argv _ _ hp⟩)))
        · exact Or.inr (Or.inr (Or.inr (Or.inl ⟨hq, hc, hpp, main_of_ok env argv _ _ hp⟩)))
        · exact Or.inr (Or.inl ⟨hq, hc, hpp, main_of_failed env argv _ hp⟩)

/-- With `argc >= 2`, a successful `fs::absolute`, a loaded configuration and no failing
status query, a run of `main` is one row of the decision table. -/
theorem main_rows (env : Env) (argv c cpp : List String) (exe_path : String)
    (hlen : 2 ≤ argv.length) (ha : absolute env (argv.headD "") = some exe_path)
    (hg : get_default_opts env exe_path [] [] = (true, c, cpp))
    (hq : queries_ok env (argv.drop 1)) :
    (anyC env (argv.drop 1) ∧ anyCpp env (argv.drop 1) ∧
      main env argv = Run.failed .mixed_languages) ∨
    (¬ anyC env (argv.drop 1) ∧ ¬ anyCpp env (argv.drop 1) ∧
      main env argv = Run.failed .no_source_files) ∨
    (anyC env (argv.drop 1) ∧ ¬ anyCpp env (argv.drop 1) ∧
      main env argv = Run.invoked env "gcc" (c ++ argv.drop 1)) ∨
    (¬ anyC env (argv.drop 1) ∧ anyCpp env (argv.drop 1) ∧
      main env argv = Run.invoked env "g++" (cpp ++ argv.drop 1)) := by
  rcases main_cases env argv with ⟨h, _⟩ | ⟨_, h, _⟩ | ⟨_, e, he, h, _⟩ | ⟨_, e, c1, cpp1, he, hg1, h⟩
  · omega
  · rw [ha] at h; cases h
  · rw [ha] at he
    cases he
    rw [hg] at h
    cases h
  · rw [ha] at he
    cases he
    rw [hg] at hg1
    simp only [Prod.mk.injEq, true_and] at hg1
    obtain ⟨rfl, rfl⟩ := hg1
    rcases h with ⟨h, _⟩ | ⟨_, h⟩ | ⟨_, h⟩ | ⟨_, h⟩ | ⟨_, h⟩
    · exact absurd hq h
    · exact Or.inl h
    · exact Or.inr (Or.inl h)
    · exact Or.inr (Or.inr (Or.inl h))
    · exact Or.inr (Or.inr (Or.inr h))

/-! ## Claims -/

/-- C1 (amended): the decision table of the dispatch (lines 90-123 of `main`) holds for every
argument list and every file system in which the status query succeeds for every argument.
Then, and only then, the dispatch yields a row of the table: no C and no C++ source gives the
NoSourceFiles failure, both give the MixedLanguages failure, C only gives `gcc` with the C
flags, C++ only gives `g++` with the C++ flags.  In a run of `main` with `argc >= 2`, a
successful `fs::absolute` and a loaded configuration, the first two rows end with the matching
message on standard error and `EXIT_FAILURE`, the last two run `gcc` resp. `g++` with the
loaded flags of that language followed by the user arguments. -/
theorem dispatch_decision_table (env : Env) (args c cpp : List String) :
    (dispatch env args c cpp = .error (.failed .no_source_files) ↔
      queries_ok env args ∧ ¬ anyC env args ∧ ¬ anyCpp env args) ∧
    (dispatch env args c cpp = .error (.failed .mixed_languages) ↔
      queries_ok env args ∧ anyC env args ∧ anyCpp env args) ∧
    (dispatch env args c cpp = .ok ("gcc", c) ↔
      queries_ok env args ∧ anyC env args ∧ ¬ anyCpp env args) ∧
    (dispatch env args c cpp = .ok ("g++", cpp) ↔
      queries_ok env args ∧ ¬ anyC env args ∧ anyCpp env args) ∧
    (∀ (argv : List String) (exe_path : String), 2 ≤ argv.length →
      absolute env (argv.headD "") = some exe_path →
      get_default_opts env exe_path [] [] = (true, c, cpp) →
      queries_ok env (argv.drop 1) →
      (¬ anyC env (argv.drop 1) ∧ ¬ anyCpp env (argv.drop 1) →
        (main env argv).stderr = [Failure.no_source_files.message] ∧
        (main env argv).commands = [] ∧
        (main env argv).ending = .returned EXIT_FAILURE) ∧
      (anyC env (argv.drop 1) ∧ anyCpp env (argv.drop 1) →
        (main env argv).stderr = [Failure.mixed_languages.message] ∧
        (main env argv).commands = [] ∧
        (main env argv).ending = .returned EXIT_FAILURE) ∧
      (anyC env (argv.drop 1) ∧ ¬ anyCpp env (argv.drop 1) →
        (main env argv).commands = [command_line (c ++ argv.drop 1) "gcc"]) ∧
      (¬ anyC env (argv.drop 1) ∧ anyCpp env (argv.drop 1) →
        (main env argv).commands = [command_line (cpp ++ argv.drop 1) "g++"])) := by
  refine ⟨?_, ?_, ?_, ?_, ?_⟩
  · rw [dispatch_eq, ← all_ok_iff, ← seen_c_iff, ← seen_cpp_iff]
    cases all_ok env args <;> cases seen_c env args <;> cases seen_cpp env args <;> simp
  · rw [dispatch_eq, ← all_ok_iff, ← seen_c_iff, ← seen_cpp_iff]
    cases all_ok env args <;> cases seen_c env args <;> cases seen_cpp env args <;> simp
  · rw [dispatch_eq, ← all_ok_iff, ← seen_c_iff, ← seen_cpp_iff]
    cases all_ok env args <;> cases seen_c env args <;> cases seen_cpp env args <;> simp
  · rw [dispatch_eq, ← all_ok_iff, ← seen_c_iff, ← seen_cpp_iff]
    cases all_ok env args <;> cases seen_c env args <;> cases seen_cpp env args <;> simp
  · intro argv exe hlen ha hg hq
    have rows := main_rows env argv c cpp exe hlen ha hg hq
    refine ⟨fun h => ?_, fun h => ?_, fun h => ?_, fun h => ?_⟩ <;>
      rcases rows with ⟨hc, hp, hm⟩ | ⟨hc, hp, hm⟩ | ⟨hc, hp, hm⟩ | ⟨hc, hp, hm⟩ <;>
      first
        | exact absurd hc h.1
        | exact absurd h.1 hc
        | exact absurd hp h.2
        | exact absurd h.2 hp
        | (rw [hm]; exact ⟨rfl, rfl, rfl⟩)
        | (rw [hm]; rfl)

/-- The claim C1 as first stated fails where a status query throws: in the run
`sc main.c loop.c`, with `main.c` an existing regular file and `loop.c` a path whose status
query fails, only a C source is seen, yet the dispatch selects nothing and `main` is aborted
without running a command. -/
theorem dispatch_decision_table_counterexample :
    anyC (scenario_broken ["main.c"] ["loop.c"] "-Wall\n" "" 0) ["main.c", "loop.c"] ∧
    ¬ anyCpp (scenario_broken ["main.c"] ["loop.c"] "-Wall\n" "" 0) ["main.c", "loop.c"] ∧
    dispatch (scenario_broken ["main.c"] ["loop.c"] "-Wall\n" "" 0) ["main.c", "loop.c"]
      ["-Wall"] [] ≠ .ok ("gcc", ["-Wall"]) ∧
    dispatch (scenario_broken ["main.c"] ["loop.c"] "-Wall\n" "" 0) ["main.c", "loop.c"]
      ["-Wall"] [] = .error .threw ∧
    (main (scenario_broken ["main.c"] ["loop.c"] "-Wall\n" "" 0)
      ["/opt/sc/bin/sc", "main.c", "loop.c"]).commands = [] ∧
    (main (scenario_broken ["main.c"] ["loop.c"] "-Wall\n" "" 0)
      ["/opt/sc/bin/sc", "main.c", "loop.c"]).ending = .aborted := by
  have hd : dispatch (scenario_broken ["main.c"] ["loop.c"] "-Wall\n" "" 0) ["main.c", "loop.c"]
      ["-Wall"] [] = .error .threw := rfl
  refine ⟨(seen_c_iff _ _).mp (by decide), fun h => ?_, ?_, hd, by decide, by decide⟩
  · exact absurd ((seen_cpp_iff _ _).mpr h) (by decide)
  · rw [hd]
    exact fun h => Except.noConfusion h

/-- C2 (amended): reordering the arguments never changes the outcome of the dispatch, and an
argument list with an existing `.c` file and an existing C++ file, on which every status query
succeeds, fails with MixedLanguages in the given order and in every other order. -/
theorem dispatch_perm_invariant (env : Env) (args args' c cpp : List String)
    (hperm : args.Perm args') :
    dispatch env args c cpp = dispatch env args' c cpp ∧
    (queries_ok env args → anyC env args ∧ anyCpp env args →
      dispatch env args c cpp = .error (.failed .mixed_languages) ∧
      dispatch env args' c cpp = .error (.failed .mixed_languages)) := by
  have heq : dispatch env args c cpp = dispatch env args' c cpp := by
    unfold dispatch
    rw [scan_perm env hperm]
  refine ⟨heq, fun hq h => ?_⟩
  have hm : dispatch env args c cpp = .error (.failed .mixed_languages) := by
    rw [dispatch_eq, (all_ok_iff env args).mpr hq, (seen_c_iff env args).mpr h.1,
      (seen_cpp_iff env args).mpr h.2]
  exact ⟨hm, heq ▸ hm⟩

/-- The statement of C2 at the arguments `a.c -O2 b.cpp` and their reordering
`b.cpp a.c -O2`, both files existing: the same MixedLanguages failure in both orders. -/
theorem dispatch_perm_invariant_witness :
    List.Perm ["a.c", "-O2", "b.cpp"] ["b.cpp", "a.c", "-O2"] ∧
    dispatch (scenario ["a.c", "b.cpp"] none none 0) ["a.c", "-O2", "b.cpp"] ["-Wall"] ["-Wextra"] =
      dispatch (scenario ["a.c", "b.cpp"] none none 0) ["b.cpp", "a.c", "-O2"] ["-Wall"]
        ["-Wextra"] ∧
    dispatch (scenario ["a.c", "b.cpp"] none none 0) ["a.c", "-O2", "b.cpp"] ["-Wall"]
      ["-Wextra"] = .error (.failed .mixed_languages) ∧
    dispatch (scenario ["a.c", "b.cpp"] none none 0) ["b.cpp", "a.c", "-O2"] ["-Wall"]
      ["-Wextra"] = .error (.failed .mixed_languages) :=
  have hperm : List.Perm ["a.c", "-O2", "b.cpp"] ["b.cpp", "a.c", "-O2"] :=
    ((List.Perm.swap "b.cpp" "-O2" []).cons "a.c").trans (List.Perm.swap "b.cpp" "a.c" ["-O2"])
  have h := dispatch_perm_invariant (scenario ["a.c", "b.cpp"] none none 0)
    ["a.c", "-O2", "b.cpp"] ["b.cpp", "a.c", "-O2"] ["-Wall"] ["-Wextra"] hperm
  ⟨hperm, h.1,
    h.2 ((all_ok_iff _ _).mp (by decide))
      ⟨(seen_c_iff _ _).mp (by decide), (seen_cpp_iff _ _).mp (by decide)⟩⟩

/-- The claim C2 as first stated fails where a status query throws: `a.c b.cpp loop.c` holds
an existing `.c` file and an existing `.cpp` file, but the status query on `loop.c` throws and
the dispatch does not end with the MixedLanguages failure. -/
theorem dispatch_perm_invariant_counterexample :
    anyC (scenario_broken ["a.c", "b.cpp"] ["loop.c"] "" "" 0) ["a.c", "b.cpp", "loop.c"] ∧
    anyCpp (scenario_broken ["a.c", "b.cpp"] ["loop.c"] "" "" 0) ["a.c", "b.cpp", "loop.c"] ∧
    dispatch (scenario_broken ["a.c", "b.cpp"] ["loop.c"] "" "" 0) ["a.c", "b.cpp", "loop.c"]
      [] [] ≠ .error (.failed .mixed_languages) ∧
    (main (scenario_broken ["a.c", "b.cpp"] ["loop.c"] "" "" 0)
      ["/opt/sc/bin/sc", "a.c", "b.cpp", "loop.c"]).stderr = [] ∧
    (main (scenario_broken ["a.c", "b.cpp"] ["loop.c"] "" "" 0)
      ["/opt/sc/bin/sc", "a.c", "b.cpp", "loop.c"]).ending = .aborted := by
  have hd : dispatch (scenario_broken ["a.c", "b.cpp"] ["loop.c"] "" "" 0)
      ["a.c", "b.cpp", "loop.c"] [] [] = .error .threw := rfl
  refine ⟨(seen_c_iff _ _).mp (by decide), (seen_cpp_iff _ _).mp (by decide), ?_, by decide,
    by decide⟩
  rw [hd]
  intro h
  cases h

/-- C3: classification depends on the extension only and is case-sensitive. `is_c_file` holds
exactly for the extension `.c`, `is_cpp_file` exactly for `.cpp`, `.cxx`, `.cc` and `.C`; no
path is both; two paths with the same extension are classified alike; `.CPP`, `.c++`, `.h`
and a missing extension are neither C nor C++. -/
theorem classification_by_extension (p : String) :
    (is_c_file p = true ↔ extension p = ".c") ∧
    (is_cpp_file p = true ↔
      extension p = ".cpp" ∨ extension p = ".cxx" ∨ extension p = ".cc" ∨ extension p = ".C") ∧
    ¬ (is_c_file p = true ∧ is_cpp_file p = true) ∧
    (∀ q : String, extension q = extension p →
      is_c_file q = is_c_file p ∧ is_cpp_file q = is_cpp_file p) ∧
    (is_c_file "x.c" = true ∧ is_cpp_file "x.c" = false) ∧
    (is_c_file "x.C" = false ∧ is_cpp_file "x.C" = true) ∧
    (is_cpp_file "x.cpp" = true ∧ is_cpp_file "x.cxx" = true ∧ is_cpp_file "x.cc" = true) ∧
    (is_c_file "x.CPP" = false ∧ is_cpp_file "x.CPP" = false) ∧
    (is_c_file "x.c++" = false ∧ is_cpp_file "x.c++" = false) ∧
    (is_c_file "x.h" = false ∧ is_cpp_file "x.h" = false) ∧
    (is_c_file "Makefile" = false ∧ is_cpp_file "Makefile" = false) := by
  refine ⟨is_c_file_iff p, is_cpp_file_iff p, not_c_and_cpp p, ?_, ?_⟩
  · intro q hq
    simp [is_c_file, is_cpp_file, hq]
  · decide

/-- C4: when `main` reaches `compile`, the argument vector it hands over is the default flags
selected by the dispatch followed by the user arguments `argv[1..]`, nothing added, dropped or
changed: the first `|D|` entries are `D`, the rest is the user arguments, and the length is
`|D| + |U|`.  Defaults `[a, b]` and user arguments `[c, d]` give `[a, b, c, d]`. -/
theorem assembled_is_concat (env : Env) (argv : List String) (compiler : String)
    (full_args : List String) (h : prepare env argv = .ok (compiler, full_args)) :
    (∃ exe_path c cpp D,
      absolute env (argv.headD "") = some exe_path ∧
      get_default_opts env exe_path [] [] = (true, c, cpp) ∧
      dispatch env (argv.drop 1) c cpp = .ok (compiler, D) ∧
      full_args = D ++ argv.drop 1 ∧
      full_args.length = D.length + (argv.length - 1) ∧
      full_args.take D.length = D ∧
      full_args.drop D.length = argv.drop 1) ∧
    (main env argv).commands = [command_line full_args compiler] ∧
    (∀ D U : List String, assemble D U = D ++ U ∧ (assemble D U).length = D.length + U.length) ∧
    assemble ["a", "b"] ["c", "d"] = ["a", "b", "c", "d"] := by
  obtain ⟨_, exe, c, cpp, D, ha, hg, hd, rfl⟩ :=
    (prepare_ok_iff env argv compiler full_args).mp h
  refine ⟨⟨exe, c, cpp, D, ha, hg, hd, rfl, by simp, by simp, by simp⟩, ?_, ?_, by decide⟩
  · rw [main_of_ok env argv compiler _ h]
    rfl
  · intro D U
    simp [assemble]

/-- The statement of C4 at the run `sc -g main.c` with `gcc.conf` holding `-Wall` and `-O2`. -/
theorem assembled_is_concat_witness :
    prepare (scenario ["main.c"] (some "-Wall\n-O2\n") (some "-Wextra\n") 0)
        ["/opt/sc/bin/sc", "-g", "main.c"] = .ok ("gcc", ["-Wall", "-O2", "-g", "main.c"]) ∧
    ∃ exe_path c cpp D,
      absolute (scenario ["main.c"] (some "-Wall\n-O2\n") (some "-Wextra\n") 0)
        (["/opt/sc/bin/sc", "-g", "main.c"].headD "") = some exe_path ∧
      get_default_opts (scenario ["main.c"] (some "-Wall\n-O2\n") (some "-Wextra\n") 0)
        exe_path [] [] = (true, c, cpp) ∧
      dispatch (scenario ["main.c"] (some "-Wall\n-O2\n") (some "-Wextra\n") 0)
        (["/opt/sc/bin/sc", "-g", "main.c"].drop 1) c cpp = .ok ("gcc", D) ∧
      ["-Wall", "-O2", "-g", "main.c"] = D ++ ["/opt/sc/bin/sc", "-g", "main.c"].drop 1 ∧
      ["-Wall", "-O2", "-g", "main.c"].length =
        D.length + (["/opt/sc/bin/sc", "-g", "main.c"].length - 1) ∧
      ["-Wall", "-O2", "-g", "main.c"].take D.length = D ∧
      ["-Wall", "-O2", "-g", "main.c"].drop D.length = ["/opt/sc/bin/sc", "-g", "main.c"].drop 1 :=
  ⟨rfl,
    (assembled_is_concat (scenario ["main.c"] (some "-Wall\n-O2\n") (some "-Wextra\n") 0)
      ["/opt/sc/bin/sc", "-g", "main.c"] "gcc" ["-Wall", "-O2", "-g", "main.c"] rfl).1⟩

/-- C5: the command string built by `compile`, which is echoed and given to `system`, is the
compiler name followed by each token preceded by one space, with no quoting; it is the
compiler name alone when there is no token.  With `gcc.conf` holding `-Wall` and `-O2` the
input `main.c` runs `gcc -Wall -O2 main.c`; with `g++.conf` holding `-Wextra` the input
`a.cpp b.cpp -std=c++17` runs `g++ -Wextra a.cpp b.cpp -std=c++17`. -/
theorem command_string_join (env : Env) (c : String) (ts : List String) :
    command_line ts c = c ++ spaced ts ∧
    command_line ts c = String.intercalate " " (c :: ts) ∧
    (compile env ts c).command = command_line ts c ∧
    (compile env ts c).echo = "[INFO] Running: " ++ command_line ts c ++ "\n" ∧
    (compile env ts c).status = env.system (command_line ts c) ∧
    command_line [] c = c ∧
    command_line ["-x", "a b", "c"] "cc" = "cc -x a b c" ∧
    (main (scenario ["main.c"] (some "-Wall\n-O2\n") (some "") 0)
      ["/opt/sc/bin/sc", "main.c"]).commands = ["gcc -Wall -O2 main.c"] ∧
    (main (scenario ["main.c"] (some "-Wall\n-O2\n") (some "") 0)
      ["/opt/sc/bin/sc", "main.c"]).stdout = ["[INFO] Running: gcc -Wall -O2 main.c\n"] ∧
    (main (scenario ["a.cpp", "b.cpp"] (some "") (some "-Wextra\n") 0)
      ["/opt/sc/bin/sc", "a.cpp", "b.cpp", "-std=c++17"]).commands =
        ["g++ -Wextra a.cpp b.cpp -std=c++17"] := by
  refine ⟨command_line_eq ts c, ?_, rfl, rfl, rfl, rfl, by decide, by decide, by decide, by decide⟩
  rw [command_line_eq]
  exact (intercalate_go_eq ts c).symm

/-- C6: `get_default_opts` returns true exactly when both `conf/gcc.conf` and `conf/g++.conf`
under the grandparent directory of the executable can be opened, and when it returns false
both output vectors are what they were on entry.  One flag file alone is not enough. -/
theorem config_all_or_nothing (env : Env) (exe_path : String) (c_opts cpp_opts : List String) :
    ((get_default_opts env exe_path c_opts cpp_opts).1 = true ↔
      (env.ifstream (c_conf_dir exe_path)).isSome = true ∧
      (env.ifstream (cpp_conf_dir exe_path)).isSome = true) ∧
    ((get_default_opts env exe_path c_opts cpp_opts).1 = true ∨
      get_default_opts env exe_path c_opts cpp_opts = (false, c_opts, cpp_opts)) ∧
    c_conf_dir exe_path =
      path_append (path_append (parent_path (parent_path exe_path)) "conf") "gcc.conf" ∧
    cpp_conf_dir exe_path =
      path_append (path_append (parent_path (parent_path exe_path)) "conf") "g++.conf" ∧
    (c_conf_dir "/opt/sc/bin/sc" = "/opt/sc/conf/gcc.conf" ∧
      cpp_conf_dir "/opt/sc/bin/sc" = "/opt/sc/conf/g++.conf") ∧
    get_default_opts (scenario [] (some "-Wall\n") none 0) "/opt/sc/bin/sc" ["x"] ["y"] =
      (false, ["x"], ["y"]) ∧
    get_default_opts (scenario [] none (some "-Wextra\n") 0) "/opt/sc/bin/sc" ["x"] ["y"] =
      (false, ["x"], ["y"]) ∧
    get_default_opts (scenario [] (some "-Wall\n") (some "-Wextra\n") 0) "/opt/sc/bin/sc"
      ["x"] ["y"] = (true, ["x", "-Wall"], ["y", "-Wextra"]) := by
  refine ⟨?_, ?_, rfl, rfl, by decide, by decide, by decide, by decide⟩
  · unfold get_default_opts
    cases env.ifstream (c_conf_dir exe_path) <;> cases env.ifstream (cpp_conf_dir exe_path) <;>
      simp
  · unfold get_default_opts
    cases env.ifstream (c_conf_dir exe_path) <;> cases env.ifstream (cpp_conf_dir exe_path) <;>
      simp

/-- C7: on a successful load each flag file contributes its lines, in order and unchanged, after
what the vector held before.  The tokens read from a text contain no newline; each token
followed by a newline, concatenated, is the text itself (with a final newline added when the
text does not end in one); their number is the number of lines; the iteration bound of the
model never cuts the loop short.  Blank lines, surrounding spaces and `#` lines are kept. -/
theorem config_lines_verbatim (env : Env) (exe_path : String) (c_opts cpp_opts : List String)
    (c_conf cpp_conf : String)
    (hc : env.ifstream (c_conf_dir exe_path) = some c_conf)
    (hp : env.ifstream (cpp_conf_dir exe_path) = some cpp_conf) :
    get_default_opts env exe_path c_opts cpp_opts =
      (true, c_opts ++ read_all c_conf [], cpp_opts ++ read_all cpp_conf []) ∧
    (∀ s : String,
      (∀ t ∈ read_all s [], '\n' ∉ t.data) ∧
      ((read_all s []).map (fun t => t.data ++ ['\n'])).flatten =
        (if s.data = [] ∨ s.data.getLast? = some '\n' then s.data else s.data ++ ['\n']) ∧
      (read_all s []).length =
        s.data.count '\n' + (if s.data = [] ∨ s.data.getLast? = some '\n' then 0 else 1) ∧
      (∀ (fuel : Nat) (opts : List String), s.data.length ≤ fuel →
        read_lines fuel s.data opts = opts ++ read_all s [])) ∧
    read_all " -Wall \n\n#x\n-O2" [] = [" -Wall ", "", "#x", "-O2"] := by
  refine ⟨?_, ?_, by decide⟩
  · simp only [get_default_opts, hc, hp]
    rw [read_all_eq c_conf c_opts, read_all_eq cpp_conf cpp_opts, read_all_eq c_conf [],
      read_all_eq cpp_conf []]
    simp
  · intro s
    rw [read_all_eq s []]
    simp only [List.nil_append]
    refine ⟨?_, ?_, ?_, ?_⟩
    · intro t ht
      obtain ⟨l, hl, rfl⟩ := List.mem_map.mp ht
      exact split_lines_no_newline s.data l hl
    · have := split_lines_flatten s.data
      simp only [terminated] at this
      rw [← this, List.map_map]
      rfl
    · rw [List.length_map]
      exact split_lines_length s.data
    · intro fuel opts hf
      exact read_lines_fuel fuel s.data opts hf

/-- The statement of C7 at a C flag file with a blank line and an unterminated, padded last
line. -/
theorem config_lines_verbatim_witness :
    (scenario [] (some "-Wall\n\n -O2 ") (some "#x\n") 0).ifstream (c_conf_dir "/opt/sc/bin/sc") =
      some "-Wall\n\n -O2 " ∧
    (scenario [] (some "-Wall\n\n -O2 ") (some "#x\n") 0).ifstream (cpp_conf_dir "/opt/sc/bin/sc") =
      some "#x\n" ∧
    get_default_opts (scenario [] (some "-Wall\n\n -O2 ") (some "#x\n") 0) "/opt/sc/bin/sc" [] [] =
      (true, [] ++ read_all "-Wall\n\n -O2 " [], [] ++ read_all "#x\n" []) :=
  ⟨by decide, by decide,
    (config_lines_verbatim (scenario [] (some "-Wall\n\n -O2 ") (some "#x\n") 0) "/opt/sc/bin/sc"
      [] [] "-Wall\n\n -O2 " "#x\n" (by decide) (by decide)).1⟩

/-- C8 (amended): whenever `main` reaches the compiler invocation it returns 0 exactly when
the status of the command is 0 and `EXIT_FAILURE` for every other status, whatever its value.
In every run in which `main` returns, that is in which neither `fs::absolute` nor a status
query throws, the exit code is 0 or `EXIT_FAILURE`; and `main` returns 0 exactly when one
command was given to `system` and that command returned 0. -/
theorem exit_code_mapping (env : Env) (argv : List String) :
    (∀ code : Int, (main env argv).ending = .returned code → code = 0 ∨ code = EXIT_FAILURE) ∧
    (EXIT_SUCCESS = 0 ∧ EXIT_FAILURE ≠ 0) ∧
    ((main env argv).ending = .returned 0 ↔
      ∃ cmd, (main env argv).commands = [cmd] ∧ env.system cmd = 0) ∧
    (∀ (compiler : String) (full_args : List String),
      prepare env argv = .ok (compiler, full_args) →
      (main env argv).commands = [command_line full_args compiler] ∧
      (main env argv).ending =
        .returned (if env.system (command_line full_args compiler) = 0 then 0
          else EXIT_FAILURE)) ∧
    (∀ cmd ∈ (main env argv).commands,
      ((main env argv).ending = .returned 0 ↔ env.system cmd = 0) ∧
      (env.system cmd ≠ 0 → (main env argv).ending = .returned EXIT_FAILURE)) ∧
    ((main env argv).ending = .aborted ↔
      2 ≤ argv.length ∧
      (absolute env (argv.headD "") = none ∨
        ∃ exe_path, absolute env (argv.headD "") = some exe_path ∧
          (get_default_opts env exe_path [] []).1 = true ∧
          ¬ queries_ok env (argv.drop 1))) ∧
    ((main (scenario ["main.c"] (some "") (some "") 0)
        ["/opt/sc/bin/sc", "main.c"]).ending = .returned 0 ∧
      (main (scenario ["main.c"] (some "") (some "") 256)
        ["/opt/sc/bin/sc", "main.c"]).ending = .returned EXIT_FAILURE ∧
      (main (scenario ["main.c"] (some "") (some "") (-1))
        ["/opt/sc/bin/sc", "main.c"]).ending = .returned EXIT_FAILURE) := by
  have hne : EXIT_FAILURE ≠ 0 := by decide
  have hs : EXIT_SUCCESS = 0 := rfl
  refine ⟨?_, ⟨rfl, hne⟩, ?_, ?_, ?_, ?_, by decide⟩
  · intro code hcode
    rcases main_cases env argv with ⟨_, hm⟩ | ⟨_, _, hm⟩ | ⟨_, _, _, _, hm⟩ |
      ⟨_, _, c, cpp, _, _, ⟨_, hm⟩ | ⟨_, _, _, hm⟩ | ⟨_, _, _, hm⟩ | ⟨_, _, _, hm⟩ |
        ⟨_, _, _, hm⟩⟩ <;>
      rw [hm] at hcode <;>
      first
        | exact Ending.noConfusion hcode
        | (simp only [Run.failed, Run.invoked, Ending.returned.injEq, hs] at hcode
           first
             | (subst hcode; exact Or.inr rfl)
             | (split at hcode <;> subst hcode <;> first | exact Or.inl rfl | exact Or.inr rfl))
  · rcases main_cases env argv with ⟨_, hm⟩ | ⟨_, _, hm⟩ | ⟨_, _, _, _, hm⟩ |
      ⟨_, _, c, cpp, _, _, ⟨_, hm⟩ | ⟨_, _, _, hm⟩ | ⟨_, _, _, hm⟩ | ⟨_, _, _, hm⟩ |
        ⟨_, _, _, hm⟩⟩ <;>
      rw [hm] <;> simp only [Run.failed, Run.threw, Run.invoked]
    · simp [hne]
    · simp
    · simp [hne]
    · simp
    · simp [hne]
    · simp [hne]
    · by_cases h0 : env.system (command_line (c ++ argv.drop 1) "gcc") = 0 <;> simp [-List.drop_one, h0, hs, hne]
    · by_cases h0 : env.system (command_line (cpp ++ argv.drop 1) "g++") = 0 <;>
        simp [-List.drop_one, h0, hs, hne]
  · intro k fa hp
    rw [main_of_ok env argv k fa hp]
    exact ⟨rfl, rfl⟩
  · intro cmd hcmd
    rcases main_cases env argv with ⟨_, hm⟩ | ⟨_, _, hm⟩ | ⟨_, _, _, _, hm⟩ |
      ⟨_, _, c, cpp, _, _, ⟨_, hm⟩ | ⟨_, _, _, hm⟩ | ⟨_, _, _, hm⟩ | ⟨_, _, _, hm⟩ |
        ⟨_, _, _, hm⟩⟩ <;>
      rw [hm] at hcmd ⊢ <;>
      simp only [Run.failed, Run.threw, Run.invoked, List.mem_singleton, List.not_mem_nil]
        at hcmd ⊢
    · subst hcmd
      by_cases h0 : env.system (command_line (c ++ argv.drop 1) "gcc") = 0 <;> simp [-List.drop_one, h0, hs, hne]
    · subst hcmd
      by_cases h0 : env.system (command_line (cpp ++ argv.drop 1) "g++") = 0 <;>
        simp [-List.drop_one, h0, hs, hne]
  · rcases main_cases env argv with ⟨hl, hm⟩ | ⟨hl, ha, hm⟩ | ⟨hl, e, ha, hg, hm⟩ |
      ⟨hl, e, c, cpp, ha, hg, ⟨hq, hm⟩ | ⟨hq, _, _, hm⟩ | ⟨hq, _, _, hm⟩ | ⟨hq, _, _, hm⟩ |
        ⟨hq, _, _, hm⟩⟩ <;>
      rw [hm] <;> simp only [Run.failed, Run.threw, Run.invoked] <;>
      generalize List.headD argv "" = a0 at * <;>
      generalize List.drop 1 argv = U at *
    · simp; omega
    · simp [hl, ha]
    · simp [ha, hg]
    · simp [hl, ha, hg, hq]
    · simp [ha, hg, hq]
    · simp [ha, hg, hq]
    · simp [ha, hg, hq]
    · simp [ha, hg, hq]

/-- The claim C8 as first stated fails in the runs an uncaught exception aborts: `main` does
not return, so the run ends with neither 0 nor `EXIT_FAILURE`.  This happens when the status
query on an argument throws (`sc main.c loop.c`) and when `fs::absolute` throws (an empty
`argv[0]`). -/
theorem exit_code_mapping_counterexample :
    ¬ ((main (scenario_broken ["main.c"] ["loop.c"] "-Wall\n" "" 0)
          ["/opt/sc/bin/sc", "main.c", "loop.c"]).ending = .returned 0 ∨
        (main (scenario_broken ["main.c"] ["loop.c"] "-Wall\n" "" 0)
          ["/opt/sc/bin/sc", "main.c", "loop.c"]).ending = .returned EXIT_FAILURE) ∧
    (main (scenario_broken ["main.c"] ["loop.c"] "-Wall\n" "" 0)
      ["/opt/sc/bin/sc", "main.c", "loop.c"]).ending = .aborted ∧
    (main (scenario ["main.c"] (some "-Wall\n") (some "") 0) ["", "main.c"]).ending
      = .aborted := by
  decide

/-- C9 (amended): the compiler is run exactly once, with the command line made of `gcc` or
`g++`, the loaded flags of that language and the user arguments, when and only when
`argc >= 2`, `fs::absolute` succeeds, the configuration loads, every status query on the user
arguments succeeds, and exactly one language is detected.  In every other run no command is
given to `system` and nothing is echoed: so with fewer than two arguments, with a failed
configuration load, with no recognised source file, and with both C and C++ sources; and
unless the run is aborted by an exception, `main` then returns `EXIT_FAILURE`.  The input
`a.c b.cpp` ends with the mixed-language message, `EXIT_FAILURE` and no command. -/
theorem invoke_once_or_fail (env : Env) (argv : List String) :
    ((main env argv).commands.length = 1 ↔
      2 ≤ argv.length ∧
      (∃ exe_path, absolute env (argv.headD "") = some exe_path ∧
        (get_default_opts env exe_path [] []).1 = true) ∧
      queries_ok env (argv.drop 1) ∧
      ((anyC env (argv.drop 1) ∧ ¬ anyCpp env (argv.drop 1)) ∨
        (¬ anyC env (argv.drop 1) ∧ anyCpp env (argv.drop 1)))) ∧
    (∀ (exe_path : String) (c cpp : List String), 2 ≤ argv.length →
      absolute env (argv.headD "") = some exe_path →
      get_default_opts env exe_path [] [] = (true, c, cpp) →
      queries_ok env (argv.drop 1) →
      (anyC env (argv.drop 1) ∧ ¬ anyCpp env (argv.drop 1) →
        (main env argv).commands = [command_line (c ++ argv.drop 1) "gcc"] ∧
        (main env argv).stdout =
          ["[INFO] Running: " ++ command_line (c ++ argv.drop 1) "gcc" ++ "\n"] ∧
        (main env argv).ending =
          .returned (if env.system (command_line (c ++ argv.drop 1) "gcc") = 0 then 0
            else EXIT_FAILURE)) ∧
      (¬ anyC env (argv.drop 1) ∧ anyCpp env (argv.drop 1) →
        (main env argv).commands = [command_line (cpp ++ argv.drop 1) "g++"] ∧
        (main env argv).stdout =
          ["[INFO] Running: " ++ command_line (cpp ++ argv.drop 1) "g++" ++ "\n"] ∧
        (main env argv).ending =
          .returned (if env.system (command_line (cpp ++ argv.drop 1) "g++") = 0 then 0
            else EXIT_FAILURE))) ∧
    ((main env argv).commands.length = 1 ∨
      ((main env argv).commands = [] ∧ (main env argv).stdout = [] ∧
        ((main env argv).ending = .returned EXIT_FAILURE ∨
          (main env argv).ending = .aborted))) ∧
    (argv.length < 2 →
      (main env argv).commands = [] ∧ (main env argv).ending = .returned EXIT_FAILURE) ∧
    ((∃ exe_path, absolute env (argv.headD "") = some exe_path ∧
        (get_default_opts env exe_path [] []).1 = false) →
      (main env argv).commands = [] ∧ (main env argv).ending = .returned EXIT_FAILURE) ∧
    (¬ anyC env (argv.drop 1) ∧ ¬ anyCpp env (argv.drop 1) →
      (main env argv).commands = [] ∧
      ((main env argv).ending ≠ .aborted → (main env argv).ending = .returned EXIT_FAILURE)) ∧
    (anyC env (argv.drop 1) ∧ anyCpp env (argv.drop 1) →
      (main env argv).commands = [] ∧
      ((main env argv).ending ≠ .aborted → (main env argv).ending = .returned EXIT_FAILURE)) ∧
    ((main (scenario ["a.c", "b.cpp"] (some "-Wall\n") (some "-Wextra\n") 0)
        ["/opt/sc/bin/sc", "a.c", "b.cpp"]).commands = [] ∧
      (main (scenario ["a.c", "b.cpp"] (some "-Wall\n") (some "-Wextra\n") 0)
        ["/opt/sc/bin/sc", "a.c", "b.cpp"]).ending = .returned EXIT_FAILURE ∧
      (main (scenario ["a.c", "b.cpp"] (some "-Wall\n") (some "-Wextra\n") 0)
        ["/opt/sc/bin/sc", "a.c", "b.cpp"]).stderr = [Failure.mixed_languages.message]) := by
  refine ⟨?_, ?_, ?_, ?_, ?_, ?_, ?_, by decide⟩
  · rcases main_cases env argv with ⟨hl, hm⟩ | ⟨hl, ha, hm⟩ | ⟨hl, e, ha, hg, hm⟩ |
      ⟨hl, e, c, cpp, ha, hg, ⟨hq, hm⟩ | ⟨hq, hc, hp, hm⟩ | ⟨hq, hc, hp, hm⟩ |
        ⟨hq, hc, hp, hm⟩ | ⟨hq, hc, hp, hm⟩⟩ <;>
      rw [hm] <;> simp only [Run.failed, Run.threw, Run.invoked] <;>
      generalize List.headD argv "" = a0 at * <;>
      generalize List.drop 1 argv = U at *
    · simp; omega
    · simp [ha]
    · simp [ha, hg]
    · simp [ha, hg, hq]
    · simp [ha, hg, hq, hc, hp]
    · simp [ha, hg, hq, hc, hp]
    · simp [hl, ha, hg, hq, hc, hp]
    · simp [hl, ha, hg, hq, hc, hp]
  · intro exe c cpp hlen ha hg hq
    have hs : EXIT_SUCCESS = 0 := rfl
    have rows := main_rows env argv c cpp exe hlen ha hg hq
    refine ⟨fun h => ?_, fun h => ?_⟩ <;>
      rcases rows with ⟨hc, hp, hm⟩ | ⟨hc, hp, hm⟩ | ⟨hc, hp, hm⟩ | ⟨hc, hp, hm⟩ <;>
      first
        | exact absurd hc h.1
        | exact absurd h.1 hc
        | exact absurd hp h.2
        | exact absurd h.2 hp
        | (rw [hm]; exact ⟨rfl, rfl, rfl⟩)
  · rcases main_cases env argv with ⟨_, hm⟩ | ⟨_, _, hm⟩ | ⟨_, _, _, _, hm⟩ |
      ⟨_, _, c, cpp, _, _, ⟨_, hm⟩ | ⟨_, _, _, hm⟩ | ⟨_, _, _, hm⟩ | ⟨_, _, _, hm⟩ |
        ⟨_, _, _, hm⟩⟩ <;>
      rw [hm] <;> simp [Run.failed, Run.threw, Run.invoked]
  · intro h
    rcases main_cases env argv with ⟨_, hm⟩ | ⟨hl, _⟩ | ⟨hl, _⟩ | ⟨hl, _⟩
    · rw [hm]; exact ⟨rfl, rfl⟩
    · omega
    · omega
    · omega
  · rintro ⟨exe, ha0, hg0⟩
    rcases main_cases env argv with ⟨_, hm⟩ | ⟨_, ha, _⟩ | ⟨_, e, ha, hg, hm⟩ |
      ⟨_, e, c, cpp, ha, hg, _⟩
    · rw [hm]; exact ⟨rfl, rfl⟩
    · rw [ha] at ha0; cases ha0
    · rw [hm]; exact ⟨rfl, rfl⟩
    · rw [ha] at ha0
      cases ha0
      rw [hg] at hg0
      cases hg0
  · intro h
    rcases main_cases env argv with ⟨_, hm⟩ | ⟨_, _, hm⟩ | ⟨_, _, _, _, hm⟩ |
      ⟨_, _, c, cpp, _, _, ⟨_, hm⟩ | ⟨_, hc, hp, hm⟩ | ⟨_, hc, hp, hm⟩ | ⟨_, hc, hp, hm⟩ |
        ⟨_, hc, hp, hm⟩⟩ <;>
      first
        | exact absurd hc h.1
        | exact absurd hp h.2
        | (rw [hm]; exact ⟨rfl, fun _ => rfl⟩)
        | (rw [hm]; exact ⟨rfl, fun hne => absurd rfl hne⟩)
  · intro h
    rcases main_cases env argv with ⟨_, hm⟩ | ⟨_, _, hm⟩ | ⟨_, _, _, _, hm⟩ |
      ⟨_, _, c, cpp, _, _, ⟨_, hm⟩ | ⟨_, hc, hp, hm⟩ | ⟨_, hc, hp, hm⟩ | ⟨_, hc, hp, hm⟩ |
        ⟨_, hc, hp, hm⟩⟩ <;>
      first
        | exact absurd h.1 hc
        | exact absurd h.2 hp
        | (rw [hm]; exact ⟨rfl, fun _ => rfl⟩)
        | (rw [hm]; exact ⟨rfl, fun hne => absurd rfl hne⟩)

/-- The claim C9 as first stated fails where a status query throws: in the run
`sc main.c loop.c` there are two arguments or more, the configuration loads and exactly one
language (C) is detected, yet no command is run and the run is aborted. -/
theorem invoke_once_or_fail_counterexample :
    2 ≤ ["/opt/sc/bin/sc", "main.c", "loop.c"].length ∧
    (get_default_opts (scenario_broken ["main.c"] ["loop.c"] "-Wall\n" "" 0) "/opt/sc/bin/sc"
      [] []).1 = true ∧
    anyC (scenario_broken ["main.c"] ["loop.c"] "-Wall\n" "" 0) ["main.c", "loop.c"] ∧
    ¬ anyCpp (scenario_broken ["main.c"] ["loop.c"] "-Wall\n" "" 0) ["main.c", "loop.c"] ∧
    (main (scenario_broken ["main.c"] ["loop.c"] "-Wall\n" "" 0)
      ["/opt/sc/bin/sc", "main.c", "loop.c"]).commands.length ≠ 1 ∧
    (main (scenario_broken ["main.c"] ["loop.c"] "-Wall\n" "" 0)
      ["/opt/sc/bin/sc", "main.c", "loop.c"]).commands = [] ∧
    (main (scenario_broken ["main.c"] ["loop.c"] "-Wall\n" "" 0)
      ["/opt/sc/bin/sc", "main.c", "loop.c"]).ending = .aborted := by
  refine ⟨by decide, by decide, (seen_c_iff _ _).mp (by decide), fun h => ?_, by decide,
    by decide, by decide⟩
  exact absurd ((seen_cpp_iff _ _).mpr h) (by decide)

/-- C10: classification follows the extension rules of `std::filesystem`.  A path whose last
component is a period followed by period-free characters (such as `.c` or `.cpp`), or is `.` or
`..`, has an empty extension, is neither a C nor a C++ file, and leaves the detection flags as
they are whatever its status query answers, also when it is an existing regular file.  For a
last component with a non-empty stem before its last period only the part from that period on
decides, as in `a.tar.c`. -/
theorem extension_semantics :
    (∀ (p : String) (name : List Char), (filename p).data = '.' :: name → '.' ∉ name →
      extension p = "" ∧ is_c_file p = false ∧ is_cpp_file p = false ∧
      ∀ (env : Env) (flags : Bool × Bool),
        scan_step env flags p = (env.is_regular_file p).map (fun _ => flags)) ∧
    (∀ p : String, filename p = "." ∨ filename p = ".." →
      extension p = "" ∧ is_c_file p = false ∧ is_cpp_file p = false ∧
      ∀ (env : Env) (flags : Bool × Bool),
        scan_step env flags p = (env.is_regular_file p).map (fun _ => flags)) ∧
    (∀ (p : String) (stem e : List Char), (filename p).data = stem ++ '.' :: e → stem ≠ [] →
      '.' ∉ e → filename p ≠ ".." →
      extension p = String.mk ('.' :: e) ∧
      (is_c_file p = true ↔ e = ['c']) ∧
      (is_cpp_file p = true ↔
        e = ['c', 'p', 'p'] ∨ e = ['c', 'x', 'x'] ∨ e = ['c', 'c'] ∨ e = ['C'])) ∧
    (extension ".c" = "" ∧ extension ".cpp" = "" ∧ extension "src/.c" = "" ∧
      extension "." = "" ∧ extension ".." = "" ∧ extension "src/.." = "") ∧
    (extension "a.tar.c" = ".c" ∧ is_c_file "a.tar.c" = true ∧ is_cpp_file "a.c.cpp" = true ∧
      is_c_file "a.c.cpp" = false ∧ extension "v1.2/main" = "" ∧ extension "..c" = ".c") ∧
    scan (scenario [".c", ".cpp", "x/.cc"] none none 0) [".c", ".cpp", "x/.cc"] =
      some (false, false) := by
  have hnone : ∀ p : String, extension p = "" →
      is_c_file p = false ∧ is_cpp_file p = false ∧
      ∀ (env : Env) (flags : Bool × Bool),
        scan_step env flags p = (env.is_regular_file p).map (fun _ => flags) := by
    intro p hp
    have h1 : is_c_file p = false := by simp [is_c_file, hp]
    have h2 : is_cpp_file p = false := by simp [is_cpp_file, hp]
    refine ⟨h1, h2, fun env flags => ?_⟩
    unfold scan_step
    cases env.is_regular_file p with
    | none => rfl
    | some b => cases b <;> simp [h1, h2]
  refine ⟨?_, ?_, ?_, by decide, by decide, by decide⟩
  · intro p name hf hn
    have hx := extension_dotfile p name hf hn
    exact ⟨hx, hnone p hx⟩
  · rintro p (h | h)
    · have hx := extension_dotfile p [] (by rw [h]) (by simp)
      exact ⟨hx, hnone p hx⟩
    · have hx := extension_dotdot p h
      exact ⟨hx, hnone p hx⟩
  · intro p stem e hf hs he hdd
    have hx := extension_last_dot p stem e hf hs he hdd
    refine ⟨hx, ?_, ?_⟩
    · rw [is_c_file_iff, hx]
      constructor
      · intro h
        have := congrArg String.data h
        simpa using this
      · rintro rfl; rfl
    · rw [is_cpp_file_iff, hx]
      constructor
      · rintro (h | h | h | h) <;> have := congrArg String.data h <;> simp at this <;> simp [this]
      · rintro (rfl | rfl | rfl | rfl) <;> simp

end SimpleCompiler
